import Mathlib

/-!
Verification development for the CircleChat real-time calling core.

The development shallowly embeds two source units:

* the WebSocket transport service (class WebSocketService: connect /
  attemptReconnect / send / on / off / emit), and
* the voice-call component (peer-connection registry keyed by user id,
  createOfferForUser / handleOffer / handleAnswer, toggleMute, cleanup).

Effectful JavaScript is modelled by explicit state passing: registry
mutation becomes functions from registries to registries together with the
list of signaling messages handed to the transport, and the asynchronous
steps that can throw (createOffer / setRemoteDescription / the token
provider) take an explicit success flag whose false case follows the
source's catch block.
-/

namespace CircleChat

/-! ## Peer-connection registry (voice-call component)

The component stores peer connections in a Map keyed by participant id
(peersRef).  Each entry's observable fields for the signaling logic are the
RTCPeerConnection signalingState and connectionState. -/

inductive SigState
  | stable
  | haveLocalOffer
  | haveRemoteOffer
deriving DecidableEq, Repr

inductive ConnState
  | new
  | connecting
  | connected
  | disconnected
  | failed
  | closedConn
deriving DecidableEq, Repr

structure PeerEntry where
  sig : SigState
  conn : ConnState
deriving DecidableEq, Repr

/-- The peer-connection registry: an association list with the JS Map's
unique-key behaviour, newest entries appended. -/
abbrev Registry := List (String × PeerEntry)

/-- Map.get: first (unique) entry for the key. -/
def lookupR : Registry → String → Option PeerEntry
  | [], _ => none
  | (k, v) :: t, q => if k = q then some v else lookupR t q

/-- Map.set: replace the entry in place if the key is present, else append. -/
def setR : Registry → String → PeerEntry → Registry
  | [], k, v => [(k, v)]
  | (k', v') :: t, k, v =>
    if k' = k then (k, v) :: t else (k', v') :: setR t k v

/-- Map.delete: drop the key's entry (keys are unique, so dropping every
match coincides with the JS behaviour). -/
def eraseR (reg : Registry) (k : String) : Registry :=
  reg.filter (fun kv => decide (kv.1 ≠ k))

/-- A freshly constructed RTCPeerConnection: signalingState stable,
connectionState new (createPeerConnection). -/
def freshEntry : PeerEntry := { sig := .stable, conn := .new }

/-- Outbound signaling messages handed to wsService.send by the handlers,
reduced to their kind and target participant. -/
inductive OutMsg
  | offer (target : String)
  | answer (target : String)
deriving DecidableEq, Repr

/-- createOfferForUser(userId): guard on local stream; skip when the
existing entry is non-stable or already connected; otherwise create or
reuse the entry, create an offer and set it as local description
(signalingState becomes have-local-offer) and send the offer.  `ok = false`
follows the catch block: the entry for userId is deleted. -/
def createOfferForUser (hasStream ok : Bool) (userId : String)
    (reg : Registry) : Registry × List OutMsg :=
  if !hasStream then (reg, [])
  else
    match lookupR reg userId with
    | some pc =>
      if pc.sig ≠ .stable then (reg, [])
      else if pc.conn = .connected then (reg, [])
      else
        if ok then (setR reg userId { pc with sig := .haveLocalOffer }, [.offer userId])
        else (eraseR reg userId, [])
    | none =>
      let reg1 := setR reg userId freshEntry
      if ok then (setR reg1 userId { freshEntry with sig := .haveLocalOffer }, [.offer userId])
      else (eraseR reg1 userId, [])

/-- handleOffer: guard on local stream; create the entry if absent (a fresh
connection is stable, so the following check passes for it); drop the offer
when the entry is in any non-stable signaling state; otherwise set the
remote description, create and set the answer (net signaling state stable)
and send the answer.  `ok = false` follows the catch block. -/
def handleOffer (hasStream ok : Bool) (callerId : String)
    (reg : Registry) : Registry × List OutMsg :=
  if !hasStream then (reg, [])
  else
    match lookupR reg callerId with
    | some pc =>
      if pc.sig ≠ .stable then (reg, [])
      else
        if ok then (setR reg callerId { pc with sig := .stable }, [.answer callerId])
        else (eraseR reg callerId, [])
    | none =>
      let reg1 := setR reg callerId freshEntry
      if ok then (setR reg1 callerId { freshEntry with sig := .stable }, [.answer callerId])
      else (eraseR reg1 callerId, [])

/-- handleAnswer: ignore when no entry exists or the entry is not in
have-local-offer; otherwise set the remote description (signaling state
becomes stable).  The returned flag records whether the answer was applied.
`ok = false` follows the catch block. -/
def handleAnswer (ok : Bool) (answererId : String)
    (reg : Registry) : Registry × Bool :=
  match lookupR reg answererId with
  | none => (reg, false)
  | some pc =>
    if pc.sig ≠ .haveLocalOffer then (reg, false)
    else
      if ok then (setR reg answererId { pc with sig := .stable }, true)
      else (eraseR reg answererId, false)

/-- The call_participants_list branch of handleWebRTCMessage: when the local
stream is ready and the list is nonempty, for each listed participant that
is neither the local user nor already in the registry, schedule
createOfferForUser after 500 + index * 200 milliseconds.  Returns the
scheduled (participant, delay) pairs in list order. -/
def participantsListSchedule (selfId : String) (hasStream : Bool)
    (reg : Registry) (participants : List String) : List (String × Nat) :=
  if hasStream && decide (0 < participants.length) then
    (participants.enum.filter
      (fun ip => decide (ip.2 ≠ selfId) && (lookupR reg ip.2).isNone)).map
      (fun ip => (ip.2, 500 + ip.1 * 200))
  else []

/-- Running the scheduled createOfferForUser calls in delay order (each
timeout fires with the local stream still present and the offer step
succeeding), accumulating the offers sent. -/
def runSchedule : Registry → List String → Registry × List OutMsg
  | reg, [] => (reg, [])
  | reg, u :: rest =>
    let r1 := createOfferForUser true true u reg
    let r2 := runSchedule r1.1 rest
    (r2.1, r1.2 ++ r2.2)

/-! ## WebSocket transport service (class WebSocketService)

The service's fields are ws (nullable handle with a readyState), the
isConnecting flag, the reconnect counters and the listener map. -/

/-- Browser WebSocket readyState values. -/
inductive ReadyState
  | connecting
  | opened
  | closing
  | closedWs
deriving DecidableEq, Repr

/-- send(data): transmit the serialized frame only when a handle exists and
its readyState is OPEN; return the success flag.  The result's second
component is the list of frames actually handed to the socket. -/
def send (ws : Option ReadyState) (frame : String) : Bool × List String :=
  match ws with
  | some .opened => (true, [frame])
  | _ => (false, [])

/-- A registered event listener.  `id` identifies the callback object and
`fails` tells whether invoking it throws. -/
structure Callback where
  id : Nat
  fails : Bool
deriving DecidableEq, Repr

/-- The listener registry: event name to ordered callback list. -/
abbrev Listeners := List (String × List Callback)

/-- on(event, callback): create the event's list on first use, then push
the callback at the end. -/
def onListen : Listeners → String → Callback → Listeners
  | [], ev, cb => [(ev, [cb])]
  | (e, cbs) :: t, ev, cb =>
    if e = ev then (e, cbs ++ [cb]) :: t else (e, cbs) :: onListen t ev cb

/-- listeners.get(event), defaulting to the empty list when the event has
no entry (emit then does nothing). -/
def getCallbacks : Listeners → String → List Callback
  | [], _ => []
  | (e, cbs) :: t, ev => if e = ev then cbs else getCallbacks t ev

/-- Invoking one callback: it either returns or throws. -/
def invokeCallback (cb : Callback) : Except String Unit :=
  if cb.fails then Except.error ("listener error") else Except.ok ()

/-- The forEach loop inside emit: each callback runs inside try/catch, so a
throwing callback is logged and the loop continues with the next one.  The
result lists the ids of the callbacks that were invoked, in order. -/
def emitRun : List Callback → List Nat
  | [] => []
  | cb :: rest =>
    match invokeCallback cb with
    | Except.ok _ => cb.id :: emitRun rest
    | Except.error _ => cb.id :: emitRun rest

/-- emit(event): run every callback registered for the event. -/
def emitEvent (ls : Listeners) (ev : String) : List Nat :=
  emitRun (getCallbacks ls ev)

/-- A sequence of on(event, callback) registrations applied in order to an
initially empty listener map. -/
def registerAll (regs : List (String × Callback)) : Listeners :=
  regs.foldl (fun ls rc => onListen ls rc.1 rc.2) []

/-- maxReconnectAttempts in the service constructor. -/
def maxReconnectAttempts : Nat := 5

/-- reconnectDelay (the linear-backoff base) in the service constructor. -/
def reconnectDelay : Nat := 1000

/-- attemptReconnect: below the maximum, increment the counter and schedule
connect after reconnectDelay * (incremented counter) milliseconds; at the
maximum, emit reconnect_failed and schedule nothing.  Returns the new
counter, the scheduled delay (if any), and whether reconnect_failed was
emitted. -/
def attemptReconnect (attempts : Nat) : Nat × Option Nat × Bool :=
  if attempts < maxReconnectAttempts then
    (attempts + 1, some (reconnectDelay * (attempts + 1)), false)
  else
    (attempts, none, true)

/-- Observable outputs of the reconnection logic. -/
inductive ReconnectOut
  | scheduled (delay : Nat)
  | reconnectFailed
deriving DecidableEq, Repr

/-- The run in which every underlying open fails: each transport closure
invokes attemptReconnect; a scheduled reconnect opens a socket whose open
fails, producing the next closure.  `fuel` bounds the observed prefix. -/
def failingRun : Nat → Nat → List ReconnectOut
  | 0, _ => []
  | fuel + 1, attempts =>
    match attemptReconnect attempts with
    | (a', some d, _) => ReconnectOut.scheduled d :: failingRun fuel a'
    | (_, none, _) => [ReconnectOut.reconnectFailed]

/-! ## Transport connect life cycle as a transition system

connect(groupId) returns at once when isConnecting is set or the current
handle is OPEN; otherwise it sets isConnecting and awaits the injected
token provider; on resumption it constructs the WebSocket and installs the
onopen / onerror / onclose handlers.  onopen clears isConnecting and resets
the attempt counter; a connection failure fires error and close within a
single event-loop task (the model's wsClose step), which clears
isConnecting and runs attemptReconnect; a throwing token provider (or
WebSocket constructor) lands in the catch, clearing isConnecting.  The
traces model sequences of connect calls (from components or scheduled
reconnects) interleaved with socket events; disconnect() is outside the
claim's scope. -/

/-- Life-cycle state of one underlying WebSocket handle. -/
inductive HandleState
  | connecting
  | opened
  | closedHandle
deriving DecidableEq, Repr

/-- Service state: the flag, the number of connect calls suspended at the
token await, every handle ever created (head = the handle currently stored
in this.ws), and the reconnect counters. -/
structure TransportState where
  isConnecting : Bool
  pendingTokens : Nat
  handles : List HandleState
  reconnectAttempts : Nat
  reconnectFailedEmits : Nat
deriving DecidableEq, Repr

/-- The service as constructed. -/
def initTransport : TransportState :=
  { isConnecting := false, pendingTokens := 0, handles := [],
    reconnectAttempts := 0, reconnectFailedEmits := 0 }

/-- Scheduler events: a connect call, a token-await resumption (success or
throw), and the open / close event tasks of handle i (0 = newest). -/
inductive TransportEvent
  | callConnect
  | tokenResolved
  | tokenFailed
  | wsOpen (i : Nat)
  | wsClose (i : Nat)
deriving DecidableEq, Repr

/-- Handle i of the created-handle list. -/
def nthHandle : List HandleState → Nat → Option HandleState
  | [], _ => none
  | h :: _, 0 => some h
  | _ :: t, n + 1 => nthHandle t n

/-- Replace handle i's state. -/
def setHandle : List HandleState → Nat → HandleState → List HandleState
  | [], _, _ => []
  | _ :: t, 0, v => v :: t
  | h :: t, n + 1, v => h :: setHandle t n v

/-- this.ws && this.ws.readyState === WebSocket.OPEN. -/
def latestOpen (s : TransportState) : Bool :=
  match s.handles with
  | HandleState.opened :: _ => true
  | _ => false

/-- The error+close task of a live handle: both handlers clear
isConnecting, and onclose runs attemptReconnect. -/
def stepClose (s : TransportState) (i : Nat) : TransportState :=
  { s with handles := setHandle s.handles i HandleState.closedHandle,
           isConnecting := false,
           reconnectAttempts := (attemptReconnect s.reconnectAttempts).1,
           reconnectFailedEmits := s.reconnectFailedEmits +
             (if (attemptReconnect s.reconnectAttempts).2.2 then 1 else 0) }

/-- One scheduler step. -/
def stepT (s : TransportState) (e : TransportEvent) : TransportState :=
  match e with
  | .callConnect =>
    if s.isConnecting || latestOpen s then s
    else { s with isConnecting := true, pendingTokens := s.pendingTokens + 1 }
  | .tokenResolved =>
    match s.pendingTokens with
    | 0 => s
    | n + 1 => { s with pendingTokens := n, handles := HandleState.connecting :: s.handles }
  | .tokenFailed =>
    match s.pendingTokens with
    | 0 => s
    | n + 1 => { s with pendingTokens := n, isConnecting := false }
  | .wsOpen i =>
    match nthHandle s.handles i with
    | some HandleState.connecting =>
      { s with handles := setHandle s.handles i HandleState.opened,
               isConnecting := false, reconnectAttempts := 0 }
    | _ => s
  | .wsClose i =>
    match nthHandle s.handles i with
    | some HandleState.connecting => stepClose s i
    | some HandleState.opened => stepClose s i
    | _ => s

/-- Run a trace of scheduler events from the freshly constructed service. -/
def runT (tr : List TransportEvent) : TransportState :=
  tr.foldl stepT initTransport

/-- Handles that are not closed. -/
def liveHandles (s : TransportState) : Nat :=
  (s.handles.filter (fun h => decide (h ≠ HandleState.closedHandle))).length

/-- A connection is open, or a connect is in progress: suspended at the
token await or already constructing its socket. -/
def connectBusy (s : TransportState) : Prop :=
  0 < s.pendingTokens ∨ s.handles.head? = some HandleState.connecting ∨
    latestOpen s = true

instance (s : TransportState) : Decidable (connectBusy s) := by
  unfold connectBusy
  infer_instance

/-- The inductive invariant tying the isConnecting flag to the pending
connects and the newest handle. -/
def InvT (s : TransportState) : Prop :=
  (∀ h ∈ s.handles.tail, h = HandleState.closedHandle) ∧
  (s.isConnecting = true →
    (s.pendingTokens = 1 ∧
      (s.handles.head? = none ∨ s.handles.head? = some HandleState.closedHandle)) ∨
    (s.pendingTokens = 0 ∧ s.handles.head? = some HandleState.connecting)) ∧
  (s.isConnecting = false →
    s.pendingTokens = 0 ∧ s.handles.head? ≠ some HandleState.connecting)

/-! ## Call session controller (mute toggle and teardown) -/

/-- Local mute state: the component's isMuted flag and the enabled flag of
each audio track of the local stream. -/
structure MuteState where
  isMuted : Bool
  audioTracksEnabled : List Bool
deriving DecidableEq, Repr

/-- toggleMute(): with a local stream, compute newMutedState = !isMuted,
assign every audio track's enabled flag to newMutedState, store the flag,
and (when a group id is present) send one participant_mute_status
broadcast.  Returns the new state and the number of broadcasts sent. -/
def toggleMute (hasStream hasGroup : Bool) (s : MuteState) : MuteState × Nat :=
  if hasStream then
    ({ isMuted := !s.isMuted,
       audioTracksEnabled := s.audioTracksEnabled.map (fun _ => !s.isMuted) },
     if hasGroup then 1 else 0)
  else (s, 0)

/-- Observable call-session state at teardown: the peer registry, the
stopped flag of every local track, the remote stream ids, the participants
presence map (user id to isMuted), and whether the shared transport
connection is open. -/
structure CallSession where
  peers : Registry
  localTracksStopped : List Bool
  remoteStreams : List String
  participants : List (String × Bool)
  transportOpen : Bool
deriving DecidableEq, Repr

/-- cleanup(): close every peer connection and clear the registry, stop
every local track, drop the remote streams and audio elements.  The
participants map and the transport connection are not touched. -/
def cleanup (s : CallSession) : CallSession :=
  { s with peers := [],
           localTracksStopped := s.localTracksStopped.map (fun _ => true),
           remoteStreams := [] }

/-- The unmount effect: wsService.endCall() (a send of a call_end frame,
transmitted only while the transport is open) followed by cleanup(); the
WebSocket is deliberately not disconnected. -/
def endTeardown (s : CallSession) : CallSession × List String :=
  (cleanup s, if s.transportOpen then ["call_end"] else [])

/-! ### Registry lemmas -/

theorem lookupR_setR_self (reg : Registry) (k : String) (v : PeerEntry) :
    lookupR (setR reg k v) k = some v := by
  induction reg with
  | nil => simp [setR, lookupR]
  | cons kv t ih =>
    obtain ⟨k', v'⟩ := kv
    by_cases h : k' = k
    · simp [setR, h, lookupR]
    · simp [setR, h, lookupR, ih]

theorem lookupR_setR_ne (reg : Registry) (k q : String) (v : PeerEntry)
    (h : q ≠ k) : lookupR (setR reg k v) q = lookupR reg q := by
  induction reg with
  | nil => simp [setR, lookupR, Ne.symm h]
  | cons kv t ih =>
    obtain ⟨k', v'⟩ := kv
    by_cases hk : k' = k
    · subst hk
      simp [setR, lookupR, Ne.symm h]
    · by_cases hq : k' = q
      · subst hq
        simp [setR, hk, lookupR, Ne.symm h]
      · simp [setR, hk, lookupR, hq, ih]

theorem lookupR_eraseR_self (reg : Registry) (k : String) :
    lookupR (eraseR reg k) k = none := by
  induction reg with
  | nil => simp [eraseR, lookupR]
  | cons kv t ih =>
    obtain ⟨k', v'⟩ := kv
    by_cases h : k' = k
    · simpa [eraseR, List.filter_cons, h] using ih
    · simpa [eraseR, List.filter_cons, h, lookupR] using ih

theorem lookupR_eraseR_ne (reg : Registry) (k q : String) (h : q ≠ k) :
    lookupR (eraseR reg k) q = lookupR reg q := by
  induction reg with
  | nil => simp [eraseR]
  | cons kv t ih =>
    obtain ⟨k', v'⟩ := kv
    by_cases hk : k' = k
    · subst hk
      simpa [eraseR, List.filter_cons, lookupR, Ne.symm h] using ih
    · by_cases hq : k' = q
      · subst hq
        simp [eraseR, List.filter_cons, hk, lookupR, Ne.symm h]
      · simpa [eraseR, List.filter_cons, hk, lookupR, hq] using ih

/-! ### Event emitter lemmas -/

theorem getCallbacks_onListen (ls : Listeners) (e ev : String) (cb : Callback) :
    getCallbacks (onListen ls e cb) ev =
      if e = ev then getCallbacks ls ev ++ [cb] else getCallbacks ls ev := by
  induction ls with
  | nil =>
    by_cases h : e = ev
    · simp [onListen, getCallbacks, h]
    · simp [onListen, getCallbacks, h]
  | cons kv t ih =>
    obtain ⟨e', cbs⟩ := kv
    by_cases h1 : e' = e
    · subst h1
      by_cases h2 : e' = ev
      · simp [onListen, getCallbacks, h2]
      · simp [onListen, getCallbacks, h2]
    · by_cases h2 : e' = ev
      · subst h2
        have : ¬e = e' := fun hh => h1 hh.symm
        simp [onListen, h1, getCallbacks, this]
      · simp [onListen, h1, getCallbacks, h2, ih]

theorem emitRun_ids (cbs : List Callback) :
    emitRun cbs = cbs.map Callback.id := by
  induction cbs with
  | nil => rfl
  | cons cb rest ih =>
    cases h : invokeCallback cb with
    | ok u => simp [emitRun, h, ih]
    | error msg => simp [emitRun, h, ih]

theorem getCallbacks_registerAll (regs : List (String × Callback))
    (ls : Listeners) (ev : String) :
    getCallbacks (regs.foldl (fun a rc => onListen a rc.1 rc.2) ls) ev =
      getCallbacks ls ev ++
        (regs.filter (fun rc => decide (rc.1 = ev))).map (fun rc => rc.2) := by
  induction regs generalizing ls with
  | nil => simp
  | cons rc rest ih =>
    obtain ⟨e, cb⟩ := rc
    by_cases h : e = ev
    · simp [List.foldl_cons, ih, getCallbacks_onListen, h, List.filter_cons]
    · simp [List.foldl_cons, ih, getCallbacks_onListen, h, List.filter_cons]

/-! ## Claim theorems -/

/-- Claim C7: send(message) transmits the serialized message if and only if
the connection state is open, returning true exactly then; for every
connection state (the function is total, so no state throws) it returns a
boolean success flag and transmits nothing on failure. -/
theorem send_transmits_iff_open (ws : Option ReadyState) (frame : String) :
    ((send ws frame).1 = true ↔ ws = some ReadyState.opened) ∧
    (send ws frame).2 = (if ws = some ReadyState.opened then [frame] else []) := by
  cases ws with
  | none => simp [send]
  | some st => cases st <;> simp [send]

/-- Claim C8: for every sequence of on-registrations and every event name,
emit invokes exactly the callbacks registered for that event, in
registration order — independently of which callbacks throw, since each
invocation is wrapped in try/catch (invokeCallback / emitRun), so a
throwing callback never suppresses a later one. -/
theorem emit_order_fault_isolated (regs : List (String × Callback)) (ev : String) :
    emitEvent (registerAll regs) ev =
      ((regs.filter (fun rc => decide (rc.1 = ev))).map (fun rc => rc.2)).map
        Callback.id := by
  simp [emitEvent, registerAll, emitRun_ids, getCallbacks_registerAll, getCallbacks]

/-- Claim C2: an inbound offer from a participant whose registry entry
exists in a non-stable signaling state (in particular have-local-offer) is
dropped: the registry is unchanged and no answer (indeed no message at all)
is sent. -/
theorem glare_offer_dropped (hasStream ok : Bool) (p : String) (reg : Registry)
    (pc : PeerEntry) (hget : lookupR reg p = some pc)
    (hsig : pc.sig ≠ SigState.stable) :
    handleOffer hasStream ok p reg = (reg, []) := by
  cases hasStream with
  | false => simp [handleOffer]
  | true => simp [handleOffer, hget, hsig]

/-- Witness for C2 at a concrete glare state. -/
theorem glare_offer_dropped_witness :
    handleOffer true true ("u1")
        [("u1", { sig := SigState.haveLocalOffer, conn := ConnState.connecting })] =
      ([("u1", { sig := SigState.haveLocalOffer, conn := ConnState.connecting })], []) :=
  glare_offer_dropped true true ("u1") _
    { sig := SigState.haveLocalOffer, conn := ConnState.connecting }
    (by decide) (by decide)

/-- Claim C6: an inbound answer from P is applied exactly when P's entry
exists in have-local-offer; applying it moves the entry to stable, and in
every other situation the registry is returned unchanged with the applied
flag false. -/
theorem answer_applied_iff_have_local_offer (p : String) (reg : Registry) :
    ((handleAnswer true p reg).2 = true ↔
      (lookupR reg p).map PeerEntry.sig = some SigState.haveLocalOffer) ∧
    ((lookupR reg p).map PeerEntry.sig ≠ some SigState.haveLocalOffer →
      handleAnswer true p reg = (reg, false)) ∧
    (∀ pc, lookupR reg p = some pc → pc.sig = SigState.haveLocalOffer →
      (lookupR (handleAnswer true p reg).1 p).map PeerEntry.sig =
        some SigState.stable) := by
  cases hget : lookupR reg p with
  | none =>
    refine ⟨by simp [handleAnswer, hget], fun _ => by simp [handleAnswer, hget],
      fun pc hpc => by simp [hget] at hpc⟩
  | some pc =>
    by_cases hsig : pc.sig = SigState.haveLocalOffer
    · refine ⟨by simp [handleAnswer, hget, hsig], fun hne => ?_, fun pc' hpc' _ => ?_⟩
      · exact absurd (by simp [hget, hsig]) hne
      · have hpc : pc' = pc := (Option.some.inj hpc').symm
        subst hpc
        simp [handleAnswer, hget, hsig, lookupR_setR_self]
    · refine ⟨by simp [handleAnswer, hget, hsig], fun _ => by simp [handleAnswer, hget, hsig],
        fun pc' hpc' hsig' => ?_⟩
      have hps : pc.sig = SigState.haveLocalOffer := by
        rw [Option.some.inj hpc']
        exact hsig'
      exact absurd hps hsig

/-- Witness for C6: a concrete answer in have-local-offer reaches stable. -/
theorem answer_applied_iff_have_local_offer_witness :
    (lookupR (handleAnswer true ("u2")
        [("u2", { sig := SigState.haveLocalOffer, conn := ConnState.connecting })]).1
        "u2").map PeerEntry.sig = some SigState.stable :=
  (answer_applied_iff_have_local_offer ("u2")
      [("u2", { sig := SigState.haveLocalOffer, conn := ConnState.connecting })]).2.2
    { sig := SigState.haveLocalOffer, conn := ConnState.connecting }
    (by decide) (by decide)

/-- Claim C4 (code_bug evidence): toggling mute twice does not restore the
audio-track enablement.  Starting from the component's initial state
(isMuted = false) with one enabled audio track, the first toggle sets the
track's enabled flag to the NEW muted flag — leaving the track enabled
while the user shows as muted — and the second toggle leaves it disabled,
not enabled as it started; each of the two calls does send exactly one
mute-status broadcast. -/
theorem toggle_mute_not_involution :
    (toggleMute true true
        ((toggleMute true true { isMuted := false, audioTracksEnabled := [true] }).1)).1.audioTracksEnabled
        = [false] ∧
    (toggleMute true true { isMuted := false, audioTracksEnabled := [true] }).1.audioTracksEnabled
        = [true] ∧
    (toggleMute true true { isMuted := false, audioTracksEnabled := [true] }).2 = 1 ∧
    (toggleMute true true
        ((toggleMute true true { isMuted := false, audioTracksEnabled := [true] }).1)).2 = 1 := by
  decide

/-- Claim C9 counterexample: after the teardown of a call session with one
known remote participant, the participants presence map still holds that
participant — the teardown does not clear all presence state. -/
theorem end_not_all_presence_cleared :
    (endTeardown
        { peers := [], localTracksStopped := [false], remoteStreams := [],
          participants := [("u2", false)], transportOpen := true }).1.participants
      = [("u2", false)] ∧
    (endTeardown
        { peers := [], localTracksStopped := [false], remoteStreams := [],
          participants := [("u2", false)], transportOpen := true }).1.participants
      ≠ [] := by
  refine ⟨by decide, by decide⟩

/-- Claim C9 (amended): after end() the peer-connection registry is empty,
every local media track is stopped, the remote streams are dropped, and the
Transport Channel is left exactly as it was (no disconnect is issued);
the participants presence map is left untouched by the teardown routine and
is only discarded with the component itself. -/
theorem end_teardown_frame (s : CallSession) :
    (endTeardown s).1.peers = [] ∧
    (endTeardown s).1.localTracksStopped = s.localTracksStopped.map (fun _ => true) ∧
    (endTeardown s).1.remoteStreams = [] ∧
    (endTeardown s).1.transportOpen = s.transportOpen ∧
    (endTeardown s).1.participants = s.participants := by
  simp [endTeardown, cleanup]

/-- One closure step of the failing run, split on the counter. -/
theorem failingRun_succ (f a : Nat) :
    failingRun (f + 1) a =
      if a < 5 then
        ReconnectOut.scheduled (1000 * (a + 1)) :: failingRun f (a + 1)
      else [ReconnectOut.reconnectFailed] := by
  by_cases ha : a < 5
  · simp [failingRun, attemptReconnect, maxReconnectAttempts, reconnectDelay, ha]
  · simp [failingRun, attemptReconnect, maxReconnectAttempts, ha]

/-- Claim C1: each transport closure below 5 attempts increments the
counter and schedules the reconnect after 1000ms times the incremented
counter; at 5 attempts it emits reconnect_failed and schedules nothing; and
in the run where every underlying open fails, the observable output — for
any amount of remaining fuel — is exactly five scheduled reconnects at
1000..5000ms followed by a single reconnect_failed, with nothing after
it. -/
theorem reconnect_backoff_bounded :
    (∀ a, a < maxReconnectAttempts →
      attemptReconnect a = (a + 1, some (reconnectDelay * (a + 1)), false)) ∧
    (∀ a, maxReconnectAttempts ≤ a → attemptReconnect a = (a, none, true)) ∧
    (∀ fuel, failingRun (fuel + 6) 0 =
      [ReconnectOut.scheduled 1000, ReconnectOut.scheduled 2000,
       ReconnectOut.scheduled 3000, ReconnectOut.scheduled 4000,
       ReconnectOut.scheduled 5000, ReconnectOut.reconnectFailed]) := by
  refine ⟨fun a ha => by simp [attemptReconnect, ha], fun a ha => ?_, fun fuel => ?_⟩
  · simp [attemptReconnect, Nat.not_lt.mpr ha]
  · have h6 : fuel + 6 = (fuel + 5) + 1 := by omega
    have h5 : fuel + 5 = (fuel + 4) + 1 := by omega
    have h4 : fuel + 4 = (fuel + 3) + 1 := by omega
    have h3 : fuel + 3 = (fuel + 2) + 1 := by omega
    have h2 : fuel + 2 = (fuel + 1) + 1 := by omega
    rw [h6, failingRun_succ, h5, failingRun_succ, h4, failingRun_succ,
      h3, failingRun_succ, h2, failingRun_succ, failingRun_succ]
    norm_num

/-- Witness for C1 at concrete counters. -/
theorem reconnect_backoff_bounded_witness :
    attemptReconnect 2 = (3, some 3000, false) ∧
    attemptReconnect 5 = (5, none, true) :=
  ⟨reconnect_backoff_bounded.1 2 (by decide),
   reconnect_backoff_bounded.2.1 5 (by decide)⟩

/-- Claim C10: whenever the asynchronous offer/answer steps throw — in
createOfferForUser, handleOffer or handleAnswer, in each state in which the
function reaches its try block — the catch deletes exactly the affected
participant's registry entry and every other participant's entry is
unchanged. -/
theorem catch_deletes_only_target :
    (∀ (u : String) (reg : Registry),
      (lookupR reg u = none ∨
        ∃ pc, lookupR reg u = some pc ∧ pc.sig = SigState.stable ∧
          pc.conn ≠ ConnState.connected) →
      lookupR (createOfferForUser true false u reg).1 u = none ∧
      ∀ q, q ≠ u → lookupR (createOfferForUser true false u reg).1 q = lookupR reg q) ∧
    (∀ (p : String) (reg : Registry),
      (lookupR reg p = none ∨ ∃ pc, lookupR reg p = some pc ∧ pc.sig = SigState.stable) →
      lookupR (handleOffer true false p reg).1 p = none ∧
      ∀ q, q ≠ p → lookupR (handleOffer true false p reg).1 q = lookupR reg q) ∧
    (∀ (p : String) (reg : Registry) (pc : PeerEntry),
      lookupR reg p = some pc → pc.sig = SigState.haveLocalOffer →
      lookupR (handleAnswer false p reg).1 p = none ∧
      ∀ q, q ≠ p → lookupR (handleAnswer false p reg).1 q = lookupR reg q) := by
  refine ⟨fun u reg h => ?_, fun p reg h => ?_, fun p reg pc hpc hsig => ?_⟩
  · rcases h with hnone | ⟨pc, hpc, hsig, hconn⟩
    · have hres : (createOfferForUser true false u reg).1 = eraseR (setR reg u freshEntry) u := by
        simp [createOfferForUser, hnone]
      rw [hres]
      exact ⟨lookupR_eraseR_self _ _,
        fun q hq => by rw [lookupR_eraseR_ne _ _ _ hq, lookupR_setR_ne _ _ _ _ hq]⟩
    · have hres : (createOfferForUser true false u reg).1 = eraseR reg u := by
        simp [createOfferForUser, hpc, hsig, hconn]
      rw [hres]
      exact ⟨lookupR_eraseR_self _ _, fun q hq => lookupR_eraseR_ne _ _ _ hq⟩
  · rcases h with hnone | ⟨pc, hpc, hsig⟩
    · have hres : (handleOffer true false p reg).1 = eraseR (setR reg p freshEntry) p := by
        simp [handleOffer, hnone]
      rw [hres]
      exact ⟨lookupR_eraseR_self _ _,
        fun q hq => by rw [lookupR_eraseR_ne _ _ _ hq, lookupR_setR_ne _ _ _ _ hq]⟩
    · have hres : (handleOffer true false p reg).1 = eraseR reg p := by
        simp [handleOffer, hpc, hsig]
      rw [hres]
      exact ⟨lookupR_eraseR_self _ _, fun q hq => lookupR_eraseR_ne _ _ _ hq⟩
  · have hres : (handleAnswer false p reg).1 = eraseR reg p := by
      simp [handleAnswer, hpc, hsig]
    rw [hres]
    exact ⟨lookupR_eraseR_self _ _, fun q hq => lookupR_eraseR_ne _ _ _ hq⟩

/-- Witness for C10: a failing answer for u2 deletes exactly u2's entry. -/
theorem catch_deletes_only_target_witness :
    lookupR (handleAnswer false ("u2")
      [("u1", { sig := SigState.stable, conn := ConnState.connected }),
       ("u2", { sig := SigState.haveLocalOffer, conn := ConnState.connecting })]).1
      "u2" = none ∧
    lookupR (handleAnswer false ("u2")
      [("u1", { sig := SigState.stable, conn := ConnState.connected }),
       ("u2", { sig := SigState.haveLocalOffer, conn := ConnState.connecting })]).1
      "u1" = some { sig := SigState.stable, conn := ConnState.connected } := by
  have h := catch_deletes_only_target.2.2 ("u2")
    [("u1", { sig := SigState.stable, conn := ConnState.connected }),
     ("u2", { sig := SigState.haveLocalOffer, conn := ConnState.connecting })]
    { sig := SigState.haveLocalOffer, conn := ConnState.connecting }
    (by decide) (by decide)
  exact ⟨h.1, (h.2 ("u1") (by decide)).trans (by decide)⟩

/-- createOfferForUser for a participant with no registry entry: a fresh
entry is created, moved to have-local-offer, and one offer is sent. -/
theorem createOffer_absent (u : String) (reg : Registry)
    (h : lookupR reg u = none) :
    createOfferForUser true true u reg =
      (setR (setR reg u freshEntry) u { freshEntry with sig := SigState.haveLocalOffer },
       [OutMsg.offer u]) := by
  simp [createOfferForUser, h]

/-- Executing the scheduled offer creations for pairwise-distinct
participants absent from the registry sends exactly one offer per
participant, in order. -/
theorem runSchedule_offers (ids : List String) (reg : Registry)
    (hnd : ids.Nodup) (habs : ∀ p ∈ ids, lookupR reg p = none) :
    (runSchedule reg ids).2 = ids.map OutMsg.offer := by
  induction ids generalizing reg with
  | nil => simp [runSchedule]
  | cons u rest ih =>
    have hu : lookupR reg u = none := habs u (List.mem_cons_self u rest)
    rw [List.nodup_cons] at hnd
    have hrest : ∀ p ∈ rest,
        lookupR (setR (setR reg u freshEntry) u
          { freshEntry with sig := SigState.haveLocalOffer }) p = none := by
      intro p hp
      have hpu : p ≠ u := fun hh => hnd.1 (hh ▸ hp)
      rw [lookupR_setR_ne _ _ _ _ hpu, lookupR_setR_ne _ _ _ _ hpu]
      exact habs p (List.mem_cons_of_mem _ hp)
    simp [runSchedule, createOffer_absent u reg hu, ih _ hnd.2 hrest]

/-- Claim C5: a call_participants_list broadcast listing pairwise-distinct
participants, none the local user and none already registered, while local
media is acquired, schedules one offer creation per listed participant at
delay 500 + 200·index; the delays are pairwise distinct; executing the
schedule creates exactly one offer per listed identity; and no scheduled
offer ever targets the local user or an already-registered participant. -/
theorem participants_list_staggered_offers (selfId : String) (reg : Registry)
    (ps : List String) (hnd : ps.Nodup) (hself : ∀ p ∈ ps, p ≠ selfId)
    (habs : ∀ p ∈ ps, lookupR reg p = none) :
    participantsListSchedule selfId true reg ps =
      ps.enum.map (fun ip => (ip.2, 500 + ip.1 * 200)) ∧
    ((participantsListSchedule selfId true reg ps).map Prod.snd).Nodup ∧
    (runSchedule reg
      ((participantsListSchedule selfId true reg ps).map Prod.fst)).2 =
      ps.map OutMsg.offer ∧
    (∀ (hs : Bool) (qs : List String) (q : String) (d : Nat),
      (q, d) ∈ participantsListSchedule selfId hs reg qs →
      q ≠ selfId ∧ lookupR reg q = none) := by
  have h4 : ∀ (hs : Bool) (qs : List String) (q : String) (d : Nat),
      (q, d) ∈ participantsListSchedule selfId hs reg qs →
      q ≠ selfId ∧ lookupR reg q = none := by
    intro hs qs q d hmem
    unfold participantsListSchedule at hmem
    split at hmem
    · obtain ⟨ip, hip, heq⟩ := List.mem_map.mp hmem
      have hpred := (List.mem_filter.mp hip).2
      have hq : ip.2 = q := by
        have := congrArg Prod.fst heq
        simpa using this
      rw [Bool.and_eq_true] at hpred
      refine ⟨?_, ?_⟩
      · rw [← hq]
        exact of_decide_eq_true hpred.1
      · rw [← hq]
        exact Option.isNone_iff_eq_none.mp hpred.2
    · simp at hmem
  have h1 : participantsListSchedule selfId true reg ps =
      ps.enum.map (fun ip => (ip.2, 500 + ip.1 * 200)) := by
    cases ps with
    | nil => simp [participantsListSchedule]
    | cons a l =>
      unfold participantsListSchedule
      have hcond : (true && decide (0 < (a :: l).length)) = true := by simp
      rw [if_pos hcond]
      have hfilt : (a :: l).enum.filter
          (fun ip => decide (ip.2 ≠ selfId) && (lookupR reg ip.2).isNone) =
          (a :: l).enum := by
        rw [List.filter_eq_self]
        intro x hx
        have hx2 : x.2 ∈ a :: l := by
          have := List.mem_map_of_mem Prod.snd hx
          rwa [List.enum_map_snd] at this
        rw [Bool.and_eq_true]
        exact ⟨decide_eq_true (hself x.2 hx2),
          Option.isNone_iff_eq_none.mpr (habs x.2 hx2)⟩
      rw [hfilt]
  have h2 : ((participantsListSchedule selfId true reg ps).map Prod.snd).Nodup := by
    rw [h1, List.map_map]
    have hcomp : (Prod.snd ∘ fun ip : Nat × String => (ip.2, 500 + ip.1 * 200)) =
        (fun i => 500 + i * 200) ∘ Prod.fst := rfl
    rw [hcomp, ← List.map_map, List.enum_map_fst]
    apply List.Nodup.map
    · intro a b hab
      simp only [] at hab
      omega
    · exact List.nodup_range _
  have hfst : (participantsListSchedule selfId true reg ps).map Prod.fst = ps := by
    rw [h1, List.map_map]
    have hcomp : (Prod.fst ∘ fun ip : Nat × String => (ip.2, 500 + ip.1 * 200)) =
        (Prod.snd : Nat × String → String) := rfl
    rw [hcomp, List.enum_map_snd]
  refine ⟨h1, h2, ?_, h4⟩
  rw [hfst]
  exact runSchedule_offers ps reg hnd habs

/-- Witness for C5 at a concrete two-participant list. -/
theorem participants_list_staggered_offers_witness :
    participantsListSchedule ("me") true [] ["u2", "u3"] = [("u2", 500), ("u3", 700)] ∧
    (runSchedule [] ["u2", "u3"]).2 = [OutMsg.offer ("u2"), OutMsg.offer ("u3")] := by
  have h := participants_list_staggered_offers ("me") [] ["u2", "u3"]
    (by decide) (by decide) (by decide)
  refine ⟨h.1.trans (by decide), ?_⟩
  have hfst : (participantsListSchedule ("me") true [] ["u2", "u3"]).map Prod.fst =
      ["u2", "u3"] := by decide
  have h3 := h.2.2.1
  rw [hfst] at h3
  exact h3.trans (by decide)

/-! ### Transport connect life-cycle lemmas -/

theorem nthHandle_mem (l : List HandleState) (n : Nat) (st : HandleState)
    (h : nthHandle l n = some st) : st ∈ l := by
  induction l generalizing n with
  | nil => simp [nthHandle] at h
  | cons a t ih =>
    cases n with
    | zero =>
      simp [nthHandle] at h
      rw [← h]
      exact List.mem_cons_self a t
    | succ m =>
      simp only [nthHandle] at h
      exact List.mem_cons_of_mem _ (ih m h)

theorem pending_zero_of_head_connecting (s : TransportState) (hInv : InvT s)
    (h : s.handles.head? = some HandleState.connecting) :
    s.pendingTokens = 0 ∧ s.isConnecting = true := by
  cases hf : s.isConnecting with
  | false => exact absurd h (hInv.2.2 hf).2
  | true =>
    rcases hInv.2.1 hf with ⟨_, hh⟩ | ⟨hp, _⟩
    · rcases hh with hh | hh <;> rw [h] at hh <;> simp at hh
    · exact ⟨hp, rfl⟩

theorem pending_zero_of_head_opened (s : TransportState) (hInv : InvT s)
    (h : s.handles.head? = some HandleState.opened) : s.pendingTokens = 0 := by
  cases hf : s.isConnecting with
  | false => exact (hInv.2.2 hf).1
  | true =>
    rcases hInv.2.1 hf with ⟨_, hh⟩ | ⟨_, hh⟩
    · rcases hh with hh | hh <;> rw [h] at hh <;> simp at hh
    · rw [h] at hh
      simp at hh

theorem invT_init : InvT initTransport := by
  refine ⟨?_, ?_, ?_⟩
  · intro h hm
    simp [initTransport] at hm
  · intro h
    simp [initTransport] at h
  · intro _
    simp [initTransport]

theorem invT_step (s : TransportState) (e : TransportEvent) (hInv : InvT s) :
    InvT (stepT s e) := by
  obtain ⟨hT, hA, hC⟩ := hInv
  cases e with
  | callConnect =>
    cases hb : s.isConnecting with
    | true =>
      have hres : stepT s TransportEvent.callConnect = s := by simp [stepT, hb]
      rw [hres]
      exact ⟨hT, hA, hC⟩
    | false =>
      cases hl : latestOpen s with
      | true =>
        have hres : stepT s TransportEvent.callConnect = s := by simp [stepT, hb, hl]
        rw [hres]
        exact ⟨hT, hA, hC⟩
      | false =>
        have hc := hC hb
        have hhead : s.handles.head? = none ∨
            s.handles.head? = some HandleState.closedHandle := by
          rcases hs : s.handles with _ | ⟨h0, t⟩
          · left
            rfl
          · cases h0 with
            | connecting =>
              exfalso
              apply hc.2
              simp [hs]
            | opened =>
              exfalso
              simp [latestOpen, hs] at hl
            | closedHandle =>
              right
              rfl
        have hres : stepT s TransportEvent.callConnect =
            { s with isConnecting := true, pendingTokens := s.pendingTokens + 1 } := by
          simp [stepT, hb, hl]
        rw [hres]
        refine ⟨?_, ?_, ?_⟩
        · intro h hm
          exact hT h hm
        · intro _
          left
          refine ⟨?_, hhead⟩
          show s.pendingTokens + 1 = 1
          rw [hc.1]
        · intro hfalse
          exact Bool.noConfusion hfalse
  | tokenResolved =>
    cases hp : s.pendingTokens with
    | zero =>
      have hres : stepT s TransportEvent.tokenResolved = s := by simp [stepT, hp]
      rw [hres]
      exact ⟨hT, hA, hC⟩
    | succ n =>
      cases hb : s.isConnecting with
      | false =>
        have h0 := (hC hb).1
        rw [hp] at h0
        exact absurd h0 (Nat.succ_ne_zero n)
      | true =>
        rcases hA hb with ⟨hp1, hhead⟩ | ⟨hp0, _⟩
        · have hn : n = 0 := by
            rw [hp] at hp1
            omega
          have hall : ∀ h ∈ s.handles, h = HandleState.closedHandle := by
            intro h hm
            rcases hs : s.handles with _ | ⟨h0, t⟩
            · rw [hs] at hm
              simp at hm
            · rw [hs] at hm
              rcases List.mem_cons.mp hm with rfl | hmt
              · rcases hhead with hh | hh
                · rw [hs] at hh
                  simp at hh
                · rw [hs] at hh
                  simpa using hh
              · refine hT h ?_
                rw [hs]
                exact hmt
          have hres : stepT s TransportEvent.tokenResolved =
              { s with pendingTokens := n,
                       handles := HandleState.connecting :: s.handles } := by
            simp [stepT, hp]
          rw [hres]
          refine ⟨?_, ?_, ?_⟩
          · intro h hm
            exact hall h hm
          · intro _
            right
            exact ⟨hn, rfl⟩
          · intro hfalse
            have hff : s.isConnecting = false := hfalse
            rw [hb] at hff
            exact Bool.noConfusion hff
        · rw [hp] at hp0
          exact absurd hp0 (Nat.succ_ne_zero n)
  | tokenFailed =>
    cases hp : s.pendingTokens with
    | zero =>
      have hres : stepT s TransportEvent.tokenFailed = s := by simp [stepT, hp]
      rw [hres]
      exact ⟨hT, hA, hC⟩
    | succ n =>
      cases hb : s.isConnecting with
      | false =>
        have h0 := (hC hb).1
        rw [hp] at h0
        exact absurd h0 (Nat.succ_ne_zero n)
      | true =>
        rcases hA hb with ⟨hp1, hhead⟩ | ⟨hp0, _⟩
        · have hn : n = 0 := by
            rw [hp] at hp1
            omega
          have hres : stepT s TransportEvent.tokenFailed =
              { s with pendingTokens := n, isConnecting := false } := by
            simp [stepT, hp]
          rw [hres]
          refine ⟨?_, ?_, ?_⟩
          · intro h hm
            exact hT h hm
          · intro htrue
            exact Bool.noConfusion htrue
          · intro _
            refine ⟨hn, ?_⟩
            show s.handles.head? ≠ some HandleState.connecting
            rcases hhead with hh | hh <;> simp [hh]
        · rw [hp] at hp0
          exact absurd hp0 (Nat.succ_ne_zero n)
  | wsOpen i =>
    cases hn : nthHandle s.handles i with
    | none =>
      have hres : stepT s (TransportEvent.wsOpen i) = s := by simp [stepT, hn]
      rw [hres]
      exact ⟨hT, hA, hC⟩
    | some st =>
      cases st with
      | opened =>
        have hres : stepT s (TransportEvent.wsOpen i) = s := by simp [stepT, hn]
        rw [hres]
        exact ⟨hT, hA, hC⟩
      | closedHandle =>
        have hres : stepT s (TransportEvent.wsOpen i) = s := by simp [stepT, hn]
        rw [hres]
        exact ⟨hT, hA, hC⟩
      | connecting =>
        cases i with
        | succ m =>
          exfalso
          rcases hs : s.handles with _ | ⟨h0, t⟩
          · rw [hs] at hn
            simp [nthHandle] at hn
          · rw [hs] at hn
            simp only [nthHandle] at hn
            have hmem : HandleState.connecting ∈ t := nthHandle_mem t m _ hn
            have hcl := hT _ (show HandleState.connecting ∈ s.handles.tail by
              rw [hs]
              exact hmem)
            exact absurd hcl (by decide)
        | zero =>
          rcases hs : s.handles with _ | ⟨h0, t⟩
          · exfalso
            rw [hs] at hn
            simp [nthHandle] at hn
          · have hh0 : h0 = HandleState.connecting := by
              have hn2 := hn
              rw [hs] at hn2
              simpa [nthHandle] using hn2
            subst hh0
            have hpz := pending_zero_of_head_connecting s ⟨hT, hA, hC⟩ (by simp [hs])
            have hres : stepT s (TransportEvent.wsOpen 0) =
                { s with handles := setHandle s.handles 0 HandleState.opened,
                         isConnecting := false, reconnectAttempts := 0 } := by
              simp [stepT, hn]
            rw [hres]
            refine ⟨?_, ?_, ?_⟩
            · intro h hm
              rw [hs] at hm
              simp only [setHandle, List.tail_cons] at hm
              refine hT h ?_
              rw [hs]
              exact hm
            · intro htrue
              exact Bool.noConfusion htrue
            · intro _
              refine ⟨hpz.1, ?_⟩
              show (setHandle s.handles 0 HandleState.opened).head? ≠
                some HandleState.connecting
              rw [hs]
              simp [setHandle]
  | wsClose i =>
    cases hn : nthHandle s.handles i with
    | none =>
      have hres : stepT s (TransportEvent.wsClose i) = s := by simp [stepT, hn]
      rw [hres]
      exact ⟨hT, hA, hC⟩
    | some st =>
      cases st with
      | closedHandle =>
        have hres : stepT s (TransportEvent.wsClose i) = s := by simp [stepT, hn]
        rw [hres]
        exact ⟨hT, hA, hC⟩
      | connecting =>
        cases i with
        | succ m =>
          exfalso
          rcases hs : s.handles with _ | ⟨h0, t⟩
          · rw [hs] at hn
            simp [nthHandle] at hn
          · rw [hs] at hn
            simp only [nthHandle] at hn
            have hmem : HandleState.connecting ∈ t := nthHandle_mem t m _ hn
            have hcl := hT _ (show HandleState.connecting ∈ s.handles.tail by
              rw [hs]
              exact hmem)
            exact absurd hcl (by decide)
        | zero =>
          rcases hs : s.handles with _ | ⟨h0, t⟩
          · exfalso
            rw [hs] at hn
            simp [nthHandle] at hn
          · have hh0 : h0 = HandleState.connecting := by
              have hn2 := hn
              rw [hs] at hn2
              simpa [nthHandle] using hn2
            subst hh0
            have hpz := pending_zero_of_head_connecting s ⟨hT, hA, hC⟩ (by simp [hs])
            have hres : stepT s (TransportEvent.wsClose 0) = stepClose s 0 := by
              simp [stepT, hn]
            rw [hres]
            refine ⟨?_, ?_, ?_⟩
            · intro h hm
              have hm2 : h ∈ (setHandle s.handles 0 HandleState.closedHandle).tail := hm
              rw [hs] at hm2
              simp only [setHandle, List.tail_cons] at hm2
              refine hT h ?_
              rw [hs]
              exact hm2
            · intro htrue
              exact Bool.noConfusion htrue
            · intro _
              refine ⟨hpz.1, ?_⟩
              show (setHandle s.handles 0 HandleState.closedHandle).head? ≠
                some HandleState.connecting
              rw [hs]
              simp [setHandle]
      | opened =>
        cases i with
        | succ m =>
          exfalso
          rcases hs : s.handles with _ | ⟨h0, t⟩
          · rw [hs] at hn
            simp [nthHandle] at hn
          · rw [hs] at hn
            simp only [nthHandle] at hn
            have hmem : HandleState.opened ∈ t := nthHandle_mem t m _ hn
            have hcl := hT _ (show HandleState.opened ∈ s.handles.tail by
              rw [hs]
              exact hmem)
            exact absurd hcl (by decide)
        | zero =>
          rcases hs : s.handles with _ | ⟨h0, t⟩
          · exfalso
            rw [hs] at hn
            simp [nthHandle] at hn
          · have hh0 : h0 = HandleState.opened := by
              have hn2 := hn
              rw [hs] at hn2
              simpa [nthHandle] using hn2
            subst hh0
            have hpz := pending_zero_of_head_opened s ⟨hT, hA, hC⟩ (by simp [hs])
            have hres : stepT s (TransportEvent.wsClose 0) = stepClose s 0 := by
              simp [stepT, hn]
            rw [hres]
            refine ⟨?_, ?_, ?_⟩
            · intro h hm
              have hm2 : h ∈ (setHandle s.handles 0 HandleState.closedHandle).tail := hm
              rw [hs] at hm2
              simp only [setHandle, List.tail_cons] at hm2
              refine hT h ?_
              rw [hs]
              exact hm2
            · intro htrue
              exact Bool.noConfusion htrue
            · intro _
              refine ⟨hpz, ?_⟩
              show (setHandle s.handles 0 HandleState.closedHandle).head? ≠
                some HandleState.connecting
              rw [hs]
              simp [setHandle]

theorem invT_foldl (tr : List TransportEvent) (s : TransportState)
    (h : InvT s) : InvT (tr.foldl stepT s) := by
  induction tr generalizing s with
  | nil => simpa using h
  | cons e rest ih => exact ih _ (invT_step s e h)

theorem invT_run (tr : List TransportEvent) : InvT (runT tr) :=
  invT_foldl tr initTransport invT_init

theorem liveHandles_le_one (s : TransportState) (hInv : InvT s) :
    liveHandles s ≤ 1 := by
  rcases hs : s.handles with _ | ⟨h0, t⟩
  · simp [liveHandles, hs]
  · have ht : t.filter (fun h => !decide (h = HandleState.closedHandle)) = [] := by
      rw [List.filter_eq_nil_iff]
      intro a ha
      have := hInv.1 a (by rw [hs]; exact ha)
      simp [this]
    by_cases h0c : h0 = HandleState.closedHandle
    · simp [liveHandles, hs, List.filter_cons, h0c, ht]
    · simp [liveHandles, hs, List.filter_cons, h0c, ht]

theorem busy_callConnect_noop (s : TransportState) (hInv : InvT s)
    (hb : connectBusy s) : stepT s TransportEvent.callConnect = s := by
  have hflag : s.isConnecting = true ∨ latestOpen s = true := by
    rcases hb with hp | hh | ho
    · left
      cases hf : s.isConnecting with
      | true => rfl
      | false =>
        have := (hInv.2.2 hf).1
        omega
    · left
      cases hf : s.isConnecting with
      | true => rfl
      | false => exact absurd hh (hInv.2.2 hf).2
    · right
      exact ho
  rcases hflag with h | h <;> simp [stepT, h]

/-- Claim C3: over every event trace (connect calls from components or
scheduled reconnects, token-await resumptions, socket open/close tasks), at
most one non-closed underlying WebSocket ever exists, and a connect call
arriving while a connection is open or a connect is in progress (suspended
at the token await or mid-construction) is a complete no-op: the state,
and in particular the set of created handles, is unchanged. -/
theorem connect_idempotent_single_connection (tr : List TransportEvent) :
    liveHandles (runT tr) ≤ 1 ∧
    (connectBusy (runT tr) →
      stepT (runT tr) TransportEvent.callConnect = runT tr) :=
  ⟨liveHandles_le_one _ (invT_run tr),
   fun hb => busy_callConnect_noop _ (invT_run tr) hb⟩

/-- Witness for C3: a connect call made right after a first connect has
passed its guard (and is awaiting the token) is a no-op. -/
theorem connect_idempotent_single_connection_witness :
    connectBusy (runT [TransportEvent.callConnect]) ∧
    stepT (runT [TransportEvent.callConnect]) TransportEvent.callConnect =
      runT [TransportEvent.callConnect] :=
  ⟨by decide,
   (connect_idempotent_single_connection [TransportEvent.callConnect]).2 (by decide)⟩

end CircleChat
